import Mathlib

/-!
Shallow embedding of the statistical analytics engine of `src/app.js`
(people × location score matrix: Pearson correlation, correlation matrix,
k-means clustering with mean-imputation, exponent-parameterized ranking,
aggregate statistics, and the two-person comparison narrative).

JS numbers are modelled as exact rationals `ℚ`; values that are only used
through `Math.sqrt` / `Math.pow` land in `ℝ`.  A JS `null` score is
`Option.none`; a `NaN` result is `Option.none` as well (the code only ever
tests results with `Number.isFinite` / `=== null`).  Global mutable state
(the `people` array and the cluster cache) is threaded explicitly as an
`AppState` value.
-/

/-- One respondent: `{ name, scores }`, where `scores[i] = null` (missing)
is modelled by `none`.  Mirrors the objects pushed by `loadSheet`. -/
structure Person where
  name : String
  scores : List (Option ℚ)
deriving DecidableEq

/-- Sum of squares of a list, the `sumX2` accumulator of `pearsonCorrelation`:
`sumX2 += x * x`. -/
def sumSq (l : List ℚ) : ℚ := (l.map (fun x => x * x)).sum

/-- Pairwise-product sum, the `sumXY` accumulator of `pearsonCorrelation`:
`sumXY += x * y` (the two lists are always passed with equal lengths). -/
def sumProd (xs ys : List ℚ) : ℚ := (List.zipWith (fun x y => x * y) xs ys).sum

/-- The numerator `n * sumXY - sumX * sumY` of `pearsonCorrelation`
(`src/app.js:1840`), with `n = xs.length` exactly as in the code. -/
def pearsonNum (xs ys : List ℚ) : ℚ :=
  (xs.length : ℚ) * sumProd xs ys - xs.sum * ys.sum

/-- One variance-like factor `n * sumX2 - sumX * sumX` appearing under the
square root of the denominator of `pearsonCorrelation`. -/
def varTerm (n : ℕ) (l : List ℚ) : ℚ := (n : ℚ) * sumSq l - l.sum * l.sum

/-- The product under the square root in the denominator of
`pearsonCorrelation` (`src/app.js:1841-1844`); both factors use
`n = xs.length`, as in the code. -/
def pearsonDenSq (xs ys : List ℚ) : ℚ :=
  varTerm xs.length xs * varTerm xs.length ys

/-- `pearsonCorrelation(xs, ys)` from `src/app.js:1826-1847`.  The JS code
returns `NaN` when `n < 2`, and otherwise computes
`num / Math.sqrt(D)` after the guard `if (den === 0) return NaN`.  A `NaN`
result is modelled as `none`.  Over the reals, `Math.sqrt D === 0` holds iff
`D = 0`, and for `D < 0` the JS square root is `NaN`, so the division also
yields `NaN`; hence the result is `NaN` exactly when `D ≤ 0`, which is the
branch used here.  (For the lists the program passes, `D ≥ 0` always holds;
see `pearsonDenSq_nonneg`.) -/
noncomputable def pearsonCorrelation (xs ys : List ℚ) : Option ℝ :=
  if xs.length < 2 then none
  else if pearsonDenSq xs ys ≤ 0 then none
  else some ((pearsonNum xs ys : ℝ) / Real.sqrt ((pearsonDenSq xs ys : ℚ) : ℝ))

/-! Bridging list sums to `Finset.range` sums, for Cauchy-Schwarz. -/

theorem list_sum_eq_range (l : List ℚ) :
    l.sum = ∑ i ∈ Finset.range l.length, l.getD i 0 := by
  induction l with
  | nil => simp
  | cons a l ih =>
    rw [List.sum_cons, List.length_cons, Finset.sum_range_succ']
    simp [ih, add_comm]

theorem sumSq_eq_range (l : List ℚ) :
    sumSq l = ∑ i ∈ Finset.range l.length, l.getD i 0 ^ 2 := by
  unfold sumSq
  rw [list_sum_eq_range, List.length_map]
  refine Finset.sum_congr rfl (fun i hi => ?_)
  rw [Finset.mem_range] at hi
  rw [List.getD_eq_getElem _ _ (by simpa using hi), List.getElem_map,
    List.getD_eq_getElem _ _ hi, sq]

theorem sumProd_eq_range (xs ys : List ℚ) (h : ys.length = xs.length) :
    sumProd xs ys = ∑ i ∈ Finset.range xs.length, xs.getD i 0 * ys.getD i 0 := by
  unfold sumProd
  rw [list_sum_eq_range]
  have hlen : (List.zipWith (fun x y => x * y) xs ys).length = xs.length := by
    rw [List.length_zipWith, h, Nat.min_self]
  rw [hlen]
  refine Finset.sum_congr rfl (fun i hi => ?_)
  rw [Finset.mem_range] at hi
  rw [List.getD_eq_getElem _ _ (by rw [hlen]; exact hi), List.getElem_zipWith,
    List.getD_eq_getElem _ _ hi, List.getD_eq_getElem _ _ (by rw [h]; exact hi)]

theorem varTerm_nonneg (l : List ℚ) : 0 ≤ varTerm l.length l := by
  have h := sq_sum_le_card_mul_sum_sq (s := Finset.range l.length)
    (f := fun i => l.getD i 0)
  rw [Finset.card_range] at h
  rw [varTerm, sub_nonneg]
  calc l.sum * l.sum = (∑ i ∈ Finset.range l.length, l.getD i 0) ^ 2 := by
        rw [list_sum_eq_range]; ring
    _ ≤ (l.length : ℚ) * ∑ i ∈ Finset.range l.length, l.getD i 0 ^ 2 := h
    _ = (l.length : ℚ) * sumSq l := by rw [sumSq_eq_range]

theorem pearsonDenSq_nonneg (xs ys : List ℚ) (h : ys.length = xs.length) :
    0 ≤ pearsonDenSq xs ys :=
  mul_nonneg (varTerm_nonneg xs) (h ▸ varTerm_nonneg ys)

theorem pearsonNum_sq_le (xs ys : List ℚ) (h : ys.length = xs.length) :
    pearsonNum xs ys ^ 2 ≤ pearsonDenSq xs ys := by
  rcases Nat.eq_zero_or_pos xs.length with h0 | hpos
  · have hxs : xs = [] := List.length_eq_zero.mp h0
    have hys : ys = [] := List.length_eq_zero.mp (by rw [h, h0])
    subst hxs; subst hys
    norm_num [pearsonNum, pearsonDenSq, varTerm, sumProd, sumSq]
  · have hX := list_sum_eq_range xs
    have hY : ys.sum = ∑ i ∈ Finset.range xs.length, ys.getD i 0 := by
      rw [list_sum_eq_range, h]
    have hXX := sumSq_eq_range xs
    have hYY : sumSq ys = ∑ i ∈ Finset.range xs.length, ys.getD i 0 ^ 2 := by
      rw [sumSq_eq_range, h]
    have hP := sumProd_eq_range xs ys h
    have hCS := Finset.sum_mul_sq_le_sq_mul_sq (Finset.range xs.length)
      (fun i => (xs.length : ℚ) * xs.getD i 0 - xs.sum)
      (fun i => (xs.length : ℚ) * ys.getD i 0 - ys.sum)
    have hFG : ∑ i ∈ Finset.range xs.length,
        ((xs.length : ℚ) * xs.getD i 0 - xs.sum) * ((xs.length : ℚ) * ys.getD i 0 - ys.sum)
        = (xs.length : ℚ) * pearsonNum xs ys := by
      have e1 : ∀ i ∈ Finset.range xs.length,
          ((xs.length : ℚ) * xs.getD i 0 - xs.sum) * ((xs.length : ℚ) * ys.getD i 0 - ys.sum)
          = ((xs.length : ℚ) * (xs.length : ℚ)) * (xs.getD i 0 * ys.getD i 0)
            + (-((xs.length : ℚ) * ys.sum)) * xs.getD i 0
            + (-((xs.length : ℚ) * xs.sum)) * ys.getD i 0
            + xs.sum * ys.sum := fun i _ => by ring
      rw [Finset.sum_congr rfl e1, Finset.sum_add_distrib, Finset.sum_add_distrib,
        Finset.sum_add_distrib, ← Finset.mul_sum, ← Finset.mul_sum, ← Finset.mul_sum,
        Finset.sum_const, Finset.card_range, nsmul_eq_mul, pearsonNum, hP, hX, hY]
      ring
    have hFF : ∑ i ∈ Finset.range xs.length,
        ((xs.length : ℚ) * xs.getD i 0 - xs.sum) ^ 2
        = (xs.length : ℚ) * varTerm xs.length xs := by
      have e1 : ∀ i ∈ Finset.range xs.length,
          ((xs.length : ℚ) * xs.getD i 0 - xs.sum) ^ 2
          = ((xs.length : ℚ) * (xs.length : ℚ)) * (xs.getD i 0 ^ 2)
            + (-(2 * (xs.length : ℚ) * xs.sum)) * xs.getD i 0
            + xs.sum * xs.sum := fun i _ => by ring
      rw [Finset.sum_congr rfl e1, Finset.sum_add_distrib, Finset.sum_add_distrib,
        ← Finset.mul_sum, ← Finset.mul_sum,
        Finset.sum_const, Finset.card_range, nsmul_eq_mul, varTerm, hXX, hX]
      ring
    have hGG : ∑ i ∈ Finset.range xs.length,
        ((xs.length : ℚ) * ys.getD i 0 - ys.sum) ^ 2
        = (xs.length : ℚ) * varTerm xs.length ys := by
      have e1 : ∀ i ∈ Finset.range xs.length,
          ((xs.length : ℚ) * ys.getD i 0 - ys.sum) ^ 2
          = ((xs.length : ℚ) * (xs.length : ℚ)) * (ys.getD i 0 ^ 2)
            + (-(2 * (xs.length : ℚ) * ys.sum)) * ys.getD i 0
            + ys.sum * ys.sum := fun i _ => by ring
      rw [Finset.sum_congr rfl e1, Finset.sum_add_distrib, Finset.sum_add_distrib,
        ← Finset.mul_sum, ← Finset.mul_sum,
        Finset.sum_const, Finset.card_range, nsmul_eq_mul, varTerm, hYY, hY]
      ring
    rw [hFG, hFF, hGG] at hCS
    have hnpos : (0 : ℚ) < ((xs.length : ℚ)) ^ 2 := by
      have : (0 : ℚ) < (xs.length : ℚ) := by exact_mod_cast hpos
      positivity
    have h2 : ((xs.length : ℚ)) ^ 2 * (pearsonNum xs ys ^ 2)
        ≤ ((xs.length : ℚ)) ^ 2 * (varTerm xs.length xs * varTerm xs.length ys) := by
      calc ((xs.length : ℚ)) ^ 2 * (pearsonNum xs ys ^ 2)
          = ((xs.length : ℚ) * pearsonNum xs ys) ^ 2 := by ring
        _ ≤ ((xs.length : ℚ) * varTerm xs.length xs)
            * ((xs.length : ℚ) * varTerm xs.length ys) := hCS
        _ = ((xs.length : ℚ)) ^ 2 * (varTerm xs.length xs * varTerm xs.length ys) := by ring
    exact (mul_le_mul_left hnpos).mp h2

theorem sumProd_comm (xs ys : List ℚ) : sumProd xs ys = sumProd ys xs :=
  congrArg List.sum (List.zipWith_comm_of_comm _ mul_comm xs ys)

theorem pearsonNum_comm (xs ys : List ℚ) (h : ys.length = xs.length) :
    pearsonNum ys xs = pearsonNum xs ys := by
  unfold pearsonNum
  rw [h, sumProd_comm ys xs]
  ring

theorem pearsonDenSq_comm (xs ys : List ℚ) (h : ys.length = xs.length) :
    pearsonDenSq ys xs = pearsonDenSq xs ys := by
  unfold pearsonDenSq
  rw [h]
  ring

/-- C1: For every pair of equal-length score vectors `xs, ys` with length ≥ 2
and nonzero variance in both (the two variance-like factors of the Pearson
denominator are nonzero), `pearsonCorrelation xs ys` and
`pearsonCorrelation ys xs` return the same defined value `r`, and
`-1 ≤ r ≤ 1`. -/
theorem pearsonCorrelation_symm_and_range (xs ys : List ℚ)
    (hlen : ys.length = xs.length) (h2 : 2 ≤ xs.length)
    (hx : varTerm xs.length xs ≠ 0) (hy : varTerm xs.length ys ≠ 0) :
    ∃ r : ℝ, pearsonCorrelation xs ys = some r ∧ pearsonCorrelation ys xs = some r ∧
      -1 ≤ r ∧ r ≤ 1 := by
  have hDx : 0 < varTerm xs.length xs := lt_of_le_of_ne (varTerm_nonneg xs) (Ne.symm hx)
  have hDy : 0 < varTerm xs.length ys :=
    lt_of_le_of_ne (hlen ▸ varTerm_nonneg ys) (Ne.symm hy)
  have hD : 0 < pearsonDenSq xs ys := mul_pos hDx hDy
  have hDR : (0 : ℝ) < ((pearsonDenSq xs ys : ℚ) : ℝ) := by exact_mod_cast hD
  have hsqrt : 0 < Real.sqrt ((pearsonDenSq xs ys : ℚ) : ℝ) := Real.sqrt_pos.mpr hDR
  refine ⟨((pearsonNum xs ys : ℚ) : ℝ) / Real.sqrt ((pearsonDenSq xs ys : ℚ) : ℝ),
    ?_, ?_, ?_, ?_⟩
  · unfold pearsonCorrelation
    rw [if_neg (by omega), if_neg (not_le.mpr hD)]
  · unfold pearsonCorrelation
    rw [if_neg (by omega), if_neg (by rw [pearsonDenSq_comm xs ys hlen]; exact not_le.mpr hD),
      pearsonNum_comm xs ys hlen, pearsonDenSq_comm xs ys hlen]
  · have habs : |((pearsonNum xs ys : ℚ) : ℝ)| ≤ Real.sqrt ((pearsonDenSq xs ys : ℚ) : ℝ) := by
      rw [← Real.sqrt_sq_eq_abs]
      exact Real.sqrt_le_sqrt (by exact_mod_cast pearsonNum_sq_le xs ys hlen)
    have hq : |((pearsonNum xs ys : ℚ) : ℝ) / Real.sqrt ((pearsonDenSq xs ys : ℚ) : ℝ)| ≤ 1 := by
      rw [abs_div, abs_of_nonneg (Real.sqrt_nonneg _)]
      exact (div_le_one hsqrt).mpr habs
    exact (abs_le.mp hq).1
  · have habs : |((pearsonNum xs ys : ℚ) : ℝ)| ≤ Real.sqrt ((pearsonDenSq xs ys : ℚ) : ℝ) := by
      rw [← Real.sqrt_sq_eq_abs]
      exact Real.sqrt_le_sqrt (by exact_mod_cast pearsonNum_sq_le xs ys hlen)
    have hq : |((pearsonNum xs ys : ℚ) : ℝ) / Real.sqrt ((pearsonDenSq xs ys : ℚ) : ℝ)| ≤ 1 := by
      rw [abs_div, abs_of_nonneg (Real.sqrt_nonneg _)]
      exact (div_le_one hsqrt).mpr habs
    exact (abs_le.mp hq).2

/-- Witness for C1 at `xs = ys = [0, 1]`. -/
theorem pearsonCorrelation_symm_and_range_witness :
    (([(0 : ℚ), 1]).length = ([(0 : ℚ), 1]).length ∧ 2 ≤ ([(0 : ℚ), 1]).length ∧
      varTerm ([(0 : ℚ), 1]).length [(0 : ℚ), 1] ≠ 0) ∧
    ∃ r : ℝ, pearsonCorrelation [(0 : ℚ), 1] [(0 : ℚ), 1] = some r ∧
      pearsonCorrelation [(0 : ℚ), 1] [(0 : ℚ), 1] = some r ∧ -1 ≤ r ∧ r ≤ 1 :=
  ⟨⟨rfl, by norm_num, by norm_num [varTerm, sumSq]⟩,
    pearsonCorrelation_symm_and_range [(0 : ℚ), 1] [(0 : ℚ), 1] rfl (by norm_num)
      (by norm_num [varTerm, sumSq]) (by norm_num [varTerm, sumSq])⟩

/-- C6: for equal-length inputs, `pearsonCorrelation` is NaN (`none`) exactly
when the length is below 2 or the denominator product under the square root
is zero; otherwise it returns the Pearson quotient. -/
theorem pearsonCorrelation_nan_iff (xs ys : List ℚ) (hlen : ys.length = xs.length) :
    (pearsonCorrelation xs ys = none ↔ xs.length < 2 ∨ pearsonDenSq xs ys = 0) ∧
    (¬(xs.length < 2 ∨ pearsonDenSq xs ys = 0) →
      pearsonCorrelation xs ys
        = some ((pearsonNum xs ys : ℝ) / Real.sqrt ((pearsonDenSq xs ys : ℚ) : ℝ))) := by
  have hDnn := pearsonDenSq_nonneg xs ys hlen
  constructor
  · unfold pearsonCorrelation
    by_cases hl : xs.length < 2
    · simp [hl]
    · rw [if_neg hl]
      by_cases hz : pearsonDenSq xs ys ≤ 0
      · simp [hz, hl]
        exact le_antisymm hz hDnn
      · simp [hz, hl]
        intro hzz
        exact hz (le_of_eq hzz)
  · intro hn
    push_neg at hn
    unfold pearsonCorrelation
    rw [if_neg (by omega), if_neg (not_le.mpr (lt_of_le_of_ne hDnn (Ne.symm hn.2)))]

/-- Witness for C6 at `xs = [1, 2]`, `ys = [1, 1]` (degenerate variance in
`ys`, so the result is NaN). -/
theorem pearsonCorrelation_nan_iff_witness :
    (([(1 : ℚ), 1]).length = ([(1 : ℚ), 2]).length) ∧
    (pearsonCorrelation [(1 : ℚ), 2] [(1 : ℚ), 1] = none ↔
      ([(1 : ℚ), 2]).length < 2 ∨ pearsonDenSq [(1 : ℚ), 2] [(1 : ℚ), 1] = 0) :=
  ⟨rfl, (pearsonCorrelation_nan_iff [(1 : ℚ), 2] [(1 : ℚ), 1] rfl).1⟩

/-! Overlap of two people (`buildOverlap`, `src/app.js:1850-1866`) and the
person-by-person correlation matrix (`computeCorrelationMatrix`,
`src/app.js:1097-1128`).  All people share one score-vector length, so the
loop over `personA.scores` is modelled by zipping the two score lists. -/

/-- The `(a, b)` pairs collected by the loop of `buildOverlap`: indices where
both people have a present score, in order. -/
def overlapPairs (pA pB : Person) : List (ℚ × ℚ) :=
  (List.zip pA.scores pB.scores).filterMap (fun ab =>
    match ab with
    | (some a, some b) => some (a, b)
    | _ => none)

/-- `buildOverlap(personA, personB).{xs, ys}` from `src/app.js:1850-1866`. -/
def buildOverlap (pA pB : Person) : List ℚ × List ℚ :=
  ((overlapPairs pA pB).map Prod.fst, (overlapPairs pA pB).map Prod.snd)

/-- The default person used to model a JS out-of-bounds `people[idx]` access
(never reached for the index sets the program uses). -/
def noPerson : Person := ⟨"", []⟩

/-- One cell `{ r, overlap }` of the correlation matrix; `r = none` models
the JS `null`. -/
structure CorrCell where
  r : Option ℝ
  overlap : ℕ

/-- The cell body of the double loop of `computeCorrelationMatrix`
(`src/app.js:1104-1124`): diagonal when the two order entries name the same
person index; otherwise Pearson on the overlap, `null` when the overlap has
fewer than 2 entries or the correlation is not finite. -/
noncomputable def matrixCell (people : List Person) (idxI idxJ : ℕ) : CorrCell :=
  if idxI = idxJ then
    { r := some 1, overlap := ((people.getD idxI noPerson).scores).length }
  else
    let ov := buildOverlap (people.getD idxI noPerson) (people.getD idxJ noPerson)
    if ov.1.length < 2 then { r := none, overlap := ov.1.length }
    else { r := pearsonCorrelation ov.1 ov.2, overlap := ov.1.length }

/-- `computeCorrelationMatrix(order)` from `src/app.js:1097-1128`. -/
noncomputable def computeCorrelationMatrix (people : List Person) (order : List ℕ) :
    List (List CorrCell) :=
  order.map (fun idxI => order.map (fun idxJ => matrixCell people idxI idxJ))

/-- C3: for every ordering, every cell whose row and column map to the same
person index is `{ r = 1.0, overlap = that person's full score-vector
length }`, regardless of missing scores. -/
theorem computeCorrelationMatrix_diag (people : List Person) (order : List ℕ)
    (i j : ℕ) (hi : i < order.length) (hj : j < order.length)
    (hvalid : order.getD i 0 < people.length)
    (hij : order.getD i 0 = order.getD j 0) :
    ((computeCorrelationMatrix people order).getD i []).getD j ⟨none, 0⟩
      = ⟨some 1, ((people.getD (order.getD i 0) noPerson).scores).length⟩ := by
  unfold computeCorrelationMatrix
  have h1 : (List.map (fun idxI => List.map (fun idxJ => matrixCell people idxI idxJ) order)
        order).getD i []
      = List.map (fun idxJ => matrixCell people (order.getD i 0) idxJ) order := by
    rw [List.getD_eq_getElem _ _ (by simpa using hi), List.getElem_map,
      List.getD_eq_getElem order 0 hi]
  rw [h1]
  have h2 : (List.map (fun idxJ => matrixCell people (order.getD i 0) idxJ) order).getD j
        ⟨none, 0⟩
      = matrixCell people (order.getD i 0) (order.getD j 0) := by
    rw [List.getD_eq_getElem _ _ (by simpa using hj), List.getElem_map,
      List.getD_eq_getElem order 0 hj]
  rw [h2, ← hij, matrixCell, if_pos rfl]

/-- Witness for C3: one person whose second score is missing, order `[0, 0]`,
off-diagonal position `(0, 1)` still maps both row and column to person 0. -/
theorem computeCorrelationMatrix_diag_witness :
    (0 < ([0, 0] : List ℕ).length ∧ 1 < ([0, 0] : List ℕ).length ∧
      ([0, 0] : List ℕ).getD 0 0 < ([⟨"A", [some 1, none]⟩] : List Person).length ∧
      ([0, 0] : List ℕ).getD 0 0 = ([0, 0] : List ℕ).getD 1 0) ∧
    ((computeCorrelationMatrix [⟨"A", [some 1, none]⟩] [0, 0]).getD 0 []).getD 1 ⟨none, 0⟩
      = ⟨some 1, 2⟩ :=
  ⟨⟨by norm_num, by norm_num, by norm_num, rfl⟩, by
    have h := computeCorrelationMatrix_diag [⟨"A", [some 1, none]⟩] [0, 0] 0 1
      (by norm_num) (by norm_num) (by norm_num) rfl
    simpa [noPerson] using h⟩

/-! Custom ranking (`updateCustomRankingResults`, `src/app.js:331-432`):
per location, per person with a present score,
`contribution = Math.sign(v) * Math.pow(Math.abs(v), exponent)`. -/

/-- `Math.sign`. -/
def signQ (v : ℚ) : ℚ := if 0 < v then 1 else if v < 0 then -1 else 0

/-- The per-rater contribution `sign * Math.pow(|v|, exponent)` of
`src/app.js:350-352`.  `Math.pow` on nonnegative base agrees with real
`rpow`, including `Math.pow(0, 0) = 1`. -/
noncomputable def contribution (exponent : ℚ) (v : ℚ) : ℝ :=
  ((signQ v : ℚ) : ℝ) * (((|v| : ℚ) : ℝ) ^ ((exponent : ℚ) : ℝ))

/-- The `contributions` list gathered for one location (`src/app.js:344-355`):
one entry per person whose score at `locIdx` is present. -/
noncomputable def locationContribs (people : List Person) (exponent : ℚ) (locIdx : ℕ) :
    List ℝ :=
  people.filterMap (fun p => (p.scores.getD locIdx none).map (contribution exponent))

/-- The location `score = sum of contributions` (`src/app.js:360,368`). -/
noncomputable def locationScore (people : List Person) (exponent : ℚ) (locIdx : ℕ) : ℝ :=
  (locationContribs people exponent locIdx).sum

/-- C5: with exponent 0 every present non-zero score contributes exactly its
sign (`+1` or `-1`) to the location score; two raters at `+2` and `-3` give a
location score of `0`. -/
theorem locationScore_exponent_zero :
    (∀ v : ℚ, v ≠ 0 → contribution 0 v = ((signQ v : ℚ) : ℝ) ∧
      (contribution 0 v = 1 ∨ contribution 0 v = -1)) ∧
    locationScore [⟨"A", [some 2]⟩, ⟨"B", [some (-3)]⟩] 0 0 = 0 := by
  have hc : ∀ v : ℚ, contribution 0 v = ((signQ v : ℚ) : ℝ) := by
    intro v
    unfold contribution
    rw [show (((0 : ℚ) : ℝ)) = 0 by norm_num, Real.rpow_zero, mul_one]
  constructor
  · intro v hv
    refine ⟨hc v, ?_⟩
    rcases lt_trichotomy v 0 with h | h | h
    · right; rw [hc v]; unfold signQ; rw [if_neg (by linarith), if_pos h]; norm_num
    · exact absurd h hv
    · left; rw [hc v]; unfold signQ; rw [if_pos h]; norm_num
  · have h2 : contribution 0 2 = 1 := by
      rw [hc 2]; unfold signQ; norm_num
    have h3 : contribution 0 (-3) = -1 := by
      rw [hc (-3)]; unfold signQ; norm_num
    simp [locationScore, locationContribs, h2, h3]

/-- Witness for C5 at `v = 2`. -/
theorem locationScore_exponent_zero_witness :
    ((2 : ℚ) ≠ 0 ∧ contribution 0 2 = ((signQ 2 : ℚ) : ℝ) ∧
      (contribution 0 2 = 1 ∨ contribution 0 2 = -1)) ∧
    locationScore [⟨"A", [some 2]⟩, ⟨"B", [some (-3)]⟩] 0 0 = 0 :=
  ⟨⟨by norm_num, locationScore_exponent_zero.1 2 (by norm_num)⟩,
    locationScore_exponent_zero.2⟩

/-! Clustering normalization (`buildNormalizedVectors`, `src/app.js:437-477`).
Missing entries are imputed with the person's own mean of present entries
(0 if none), then the filled vector is standardized by its own mean and
population standard deviation (`Math.sqrt(varAcc / numLocations) || 1`). -/

/-- The present (non-null) scores of a person, in order; carries the `sum`
and `count` accumulators of `src/app.js:447-454`. -/
def presentScores (p : Person) : List ℚ := p.scores.filterMap id

/-- `mean = count > 0 ? sum / count : 0` (`src/app.js:455`). -/
def personMean (p : Person) : ℚ :=
  if 0 < (presentScores p).length
  then (presentScores p).sum / ((presentScores p).length : ℚ) else 0

/-- The `filled` array (`src/app.js:459-464`): entry `i` is the score when
present, the person's mean otherwise.  (`numLocations` is
`people[0].scores.length`; every person has that many scores.) -/
def filledScores (numLocations : ℕ) (p : Person) : List ℚ :=
  (List.range numLocations).map (fun i => (p.scores.getD i none).getD (personMean p))

/-- `mu = sum2 / numLocations` (`src/app.js:465`). -/
def normMu (numLocations : ℕ) (p : Person) : ℚ :=
  (filledScores numLocations p).sum / (numLocations : ℚ)

/-- `varAcc` (`src/app.js:466-470`). -/
def normVarAcc (numLocations : ℕ) (p : Person) : ℚ :=
  ((filledScores numLocations p).map
    (fun v => (v - normMu numLocations p) * (v - normMu numLocations p))).sum

/-- `std = Math.sqrt(varAcc / numLocations) || 1` (`src/app.js:471`): the
JS `|| 1` replaces a falsy (`0` or `NaN`) standard deviation by `1`. -/
noncomputable def normStd (numLocations : ℕ) (p : Person) : ℝ :=
  if Real.sqrt (((normVarAcc numLocations p / (numLocations : ℚ) : ℚ) : ℝ)) = 0 then 1
  else Real.sqrt (((normVarAcc numLocations p / (numLocations : ℚ) : ℚ) : ℝ))

/-- `norm = filled.map(v => (v - mu) / std)` (`src/app.js:473`): the loop
body of `buildNormalizedVectors` for one person. -/
noncomputable def normalizePerson (numLocations : ℕ) (p : Person) : List ℝ :=
  (filledScores numLocations p).map
    (fun v => (((v : ℚ) : ℝ) - ((normMu numLocations p : ℚ) : ℝ)) / normStd numLocations p)

/-- `buildNormalizedVectors()` from `src/app.js:437-477`. -/
noncomputable def buildNormalizedVectors (people : List Person) : List (List ℝ) :=
  if people = [] then []
  else people.map (normalizePerson ((people.headD noPerson).scores).length)

theorem sum_center_div (l : List ℚ) (mu : ℚ) (std : ℝ) :
    (l.map (fun v => (((v : ℚ) : ℝ) - ((mu : ℚ) : ℝ)) / std)).sum
      = ((((l.sum : ℚ) : ℝ) - (l.length : ℝ) * ((mu : ℚ) : ℝ)) / std) := by
  induction l with
  | nil => simp
  | cons a l ih =>
    rw [List.map_cons, List.sum_cons, ih, List.sum_cons, List.length_cons, div_add_div_same]
    congr 1
    push_cast
    ring

theorem normalizePerson_sum_zero (numLocations : ℕ) (p : Person) :
    (normalizePerson numLocations p).sum = 0 := by
  unfold normalizePerson
  rw [sum_center_div]
  rcases Nat.eq_zero_or_pos numLocations with h0 | hpos
  · subst h0
    simp [filledScores]
  · have hlen : (filledScores numLocations p).length = numLocations := by
      simp [filledScores]
    have hne : ((numLocations : ℚ)) ≠ 0 :=
      Nat.cast_ne_zero.mpr (Nat.pos_iff_ne_zero.mp hpos)
    have hmu : ((filledScores numLocations p).sum : ℚ)
        - (numLocations : ℚ) * normMu numLocations p = 0 := by
      unfold normMu
      field_simp
    rw [hlen]
    have h2 : (((filledScores numLocations p).sum : ℚ) : ℝ)
        - (numLocations : ℝ) * ((normMu numLocations p : ℚ) : ℝ) = 0 := by
      exact_mod_cast hmu
    rw [h2, zero_div]

/-- C10: every vector produced by `buildNormalizedVectors` sums to exactly
zero, and a person with no present scores is normalized to the all-zero
vector. -/
theorem buildNormalizedVectors_sum_zero :
    (∀ people : List Person,
      (buildNormalizedVectors people).map List.sum = List.replicate people.length 0) ∧
    (∀ (nm : String) (numLocations : ℕ),
      normalizePerson numLocations ⟨nm, List.replicate numLocations none⟩
        = List.replicate numLocations 0) := by
  constructor
  · intro people
    unfold buildNormalizedVectors
    by_cases hp : people = []
    · subst hp; simp
    · rw [if_neg hp, List.map_map]
      refine List.eq_replicate.mpr ⟨by simp, ?_⟩
      intro b hb
      rcases List.mem_map.mp hb with ⟨p, _, hpb⟩
      rw [← hpb]
      exact normalizePerson_sum_zero _ p
  · intro nm numLocations
    have hpresent : presentScores ⟨nm, List.replicate numLocations none⟩ = [] := by
      unfold presentScores
      induction numLocations with
      | zero => rfl
      | succ n ih => rw [List.replicate_succ]; simpa using ih
    have hmean : personMean ⟨nm, List.replicate numLocations none⟩ = 0 := by
      unfold personMean
      rw [hpresent]
      norm_num
    have hfilled : filledScores numLocations ⟨nm, List.replicate numLocations none⟩
        = List.replicate numLocations 0 := by
      unfold filledScores
      rw [List.eq_replicate]
      refine ⟨by simp, ?_⟩
      intro b hb
      rcases List.mem_map.mp hb with ⟨i, _, hib⟩
      have hrep : (List.replicate numLocations (none : Option ℚ)).getD i none = none := by
        rcases Nat.lt_or_ge i numLocations with hlt | hge
        · rw [List.getD_eq_getElem _ _ (by simpa using hlt), List.getElem_replicate]
        · rw [List.getD_eq_default _ _ (by simpa using hge)]
      rw [← hib]
      show ((List.replicate numLocations (none : Option ℚ)).getD i none).getD _ = 0
      rw [hrep, hmean]
      rfl
    unfold normalizePerson
    rw [hfilled]
    have hmu : normMu numLocations ⟨nm, List.replicate numLocations none⟩ = 0 := by
      unfold normMu
      rw [hfilled]
      simp
    rw [hmu, List.map_replicate]
    simp

/-! k-means (`kMeansCluster`, `src/app.js:480-547`).  The algorithm is
generic in the (ordered-field) scalar type: the program runs it on the
real-valued output of `buildNormalizedVectors`, and the claims about it
quantify over arbitrary vector lists. -/

section KMeans

variable {K : Type} [LinearOrderedField K]

/-- `distance2(a, b)` (`src/app.js:495-502`): squared Euclidean distance
over the first `dim` coordinates, where `dim = vectors[0].length`. -/
def dist2 (dim : ℕ) (a b : List K) : K :=
  ((List.range dim).map (fun i => (a.getD i 0 - b.getD i 0) * (a.getD i 0 - b.getD i 0))).sum

/-- The JS comparison `d < bestD` where `bestD` starts as `Infinity`
(modelled by `none`). -/
def ltInf (d : K) (bd : Option K) : Bool :=
  match bd with
  | none => true
  | some b => decide (d < b)

/-- The inner assignment loop of `src/app.js:508-517`: scan the centroids,
keeping the first index that strictly improves the best distance so far. -/
def bestClusterAux (dim : ℕ) (v : List K) :
    List (List K) → ℕ → ℕ → Option K → ℕ
  | [], _, bestC, _ => bestC
  | cent :: rest, c, bestC, bestD =>
    if ltInf (dist2 dim v cent) bestD
    then bestClusterAux dim v rest (c + 1) c (some (dist2 dim v cent))
    else bestClusterAux dim v rest (c + 1) bestC bestD

/-- The cluster chosen for vector `v` (starting with `bestC = 0`,
`bestD = Infinity`, as in `src/app.js:509-510`). -/
def bestCluster (dim : ℕ) (cents : List (List K)) (v : List K) : ℕ :=
  bestClusterAux dim v cents 0 0 none

/-- The vectors assigned to cluster `c` (the `sums[c]` / `counts[c]`
accumulation of `src/app.js:525-534`, expressed as a filter). -/
def clusterMembers (c : ℕ) (assigns : List ℕ) (vectors : List (List K)) : List (List K) :=
  ((List.zip assigns vectors).filter (fun p => p.1 == c)).map Prod.snd

/-- Centroid recomputation (`src/app.js:524-541`): each nonempty cluster's
centroid becomes the coordinatewise mean of its members; an empty cluster
keeps its previous centroid. -/
def updateCentroids (k dim : ℕ) (vectors : List (List K)) (assigns : List ℕ)
    (cents : List (List K)) : List (List K) :=
  (List.range k).map (fun c =>
    let members := clusterMembers c assigns vectors
    if members.isEmpty then cents.getD c []
    else (List.range dim).map (fun d =>
      (members.map (fun v => v.getD d 0)).sum / (members.length : K)))

/-- The iteration of `src/app.js:504-544` with explicit fuel
(`MAX_ITERS = 25`): assign, recompute centroids, stop early when no
assignment changed. -/
def kmeansLoop (k dim : ℕ) (vectors : List (List K)) :
    ℕ → List ℕ → List (List K) → List ℕ × List (List K)
  | 0, assigns, cents => (assigns, cents)
  | fuel + 1, assigns, cents =>
    let newAssigns := vectors.map (bestCluster dim cents)
    let newCents := updateCentroids k dim vectors newAssigns cents
    if newAssigns = assigns then (newAssigns, newCents)
    else kmeansLoop k dim vectors fuel newAssigns newCents

/-- `kMeansCluster(vectors, k)` from `src/app.js:480-547`: empty result for
no vectors or `k ≤ 0` (here `k = 0`, since `k : ℕ`); effective
`k = min(k, n)`; initial centroids are the first `k` vectors; initial
assignments all `0`. -/
def kMeansCluster (vectors : List (List K)) (k : ℕ) : List ℕ × List (List K) :=
  if vectors.length = 0 ∨ k = 0 then ([], [])
  else
    kmeansLoop (min k vectors.length) (vectors.headD []).length vectors 25
      (List.replicate vectors.length 0) (vectors.take (min k vectors.length))

end KMeans

section KMeansProofs

variable {K : Type} [LinearOrderedField K]

theorem list_range_map_sum {M : Type} [AddCommMonoid M] (n : ℕ) (f : ℕ → M) :
    ((List.range n).map f).sum = ∑ i ∈ Finset.range n, f i := by
  induction n with
  | zero => rfl
  | succ n ih =>
    rw [List.range_succ, List.map_append, List.sum_append, Finset.sum_range_succ, ih]
    simp

theorem dist2_nonneg (dim : ℕ) (a b : List K) : 0 ≤ dist2 dim a b := by
  apply List.sum_nonneg
  intro x hx
  rcases List.mem_map.mp hx with ⟨i, _, hix⟩
  rw [← hix]
  exact mul_self_nonneg _

theorem dist2_self (dim : ℕ) (v : List K) : dist2 dim v v = 0 := by
  simp [dist2]

theorem dist2_eq_zero_iff (dim : ℕ) (a b : List K)
    (ha : a.length = dim) (hb : b.length = dim) :
    dist2 dim a b = 0 ↔ a = b := by
  constructor
  · intro h
    rw [dist2, list_range_map_sum] at h
    have hall := (Finset.sum_eq_zero_iff_of_nonneg
      (fun i _ => mul_self_nonneg (a.getD i 0 - b.getD i 0))).mp h
    apply List.ext_getElem (ha.trans hb.symm)
    intro i h1 h2
    have hi : i ∈ Finset.range dim := Finset.mem_range.mpr (ha ▸ h1)
    have := sub_eq_zero.mp (mul_self_eq_zero.mp (hall i hi))
    rw [List.getD_eq_getElem a 0 h1, List.getD_eq_getElem b 0 h2] at this
    exact this
  · intro h
    rw [h]
    exact dist2_self dim b

theorem bestClusterAux_bd_zero (dim : ℕ) (v : List K) :
    ∀ (cents : List (List K)) (c bc : ℕ),
      bestClusterAux dim v cents c bc (some 0) = bc := by
  intro cents
  induction cents with
  | nil => intro c bc; rfl
  | cons cent rest ih =>
    intro c bc
    have hfalse : ltInf (dist2 dim v cent) (some 0) = false := by
      simp only [ltInf, decide_eq_false_iff_not, not_lt]
      exact dist2_nonneg dim v cent
    simp only [bestClusterAux, hfalse, Bool.false_eq_true, if_false]
    exact ih _ _

theorem bestClusterAux_finds_zero (dim : ℕ) (v : List K) :
    ∀ (cents : List (List K)) (c bc : ℕ) (bd : Option K),
      (∀ b, bd = some b → 0 < b) →
      (∃ cent ∈ cents, dist2 dim v cent = 0) →
      bestClusterAux dim v cents c bc bd
        = c + cents.findIdx (fun cent => decide (dist2 dim v cent = 0)) := by
  intro cents
  induction cents with
  | nil =>
    intro c bc bd _ hex
    simp at hex
  | cons cent rest ih =>
    intro c bc bd hbd hex
    by_cases hd : dist2 dim v cent = 0
    · have hidx : (cent :: rest).findIdx (fun cent => decide (dist2 dim v cent = 0)) = 0 := by
        rw [List.findIdx_cons]
        simp [hd]
      have htrue : ltInf (dist2 dim v cent) bd = true := by
        cases bd with
        | none => rfl
        | some b =>
          simp only [ltInf, decide_eq_true_eq, hd]
          exact hbd b rfl
      simp only [bestClusterAux, htrue, if_true, hidx, Nat.add_zero]
      rw [hd]
      exact bestClusterAux_bd_zero dim v rest (c + 1) c
    · have hdpos : 0 < dist2 dim v cent :=
        lt_of_le_of_ne (dist2_nonneg dim v cent) (Ne.symm hd)
      have hidx : (cent :: rest).findIdx (fun cent => decide (dist2 dim v cent = 0))
          = rest.findIdx (fun cent => decide (dist2 dim v cent = 0)) + 1 := by
        rw [List.findIdx_cons]
        simp [hd]
      have hex2 : ∃ x ∈ rest, dist2 dim v x = 0 := by
        rcases hex with ⟨x, hx, hdx⟩
        rcases List.mem_cons.mp hx with hxc | hxr
        · exact absurd (hxc ▸ hdx) hd
        · exact ⟨x, hxr, hdx⟩
      cases hlt : ltInf (dist2 dim v cent) bd with
      | true =>
        simp only [bestClusterAux, hlt, if_true, hidx]
        rw [ih (c + 1) c (some (dist2 dim v cent))
          (fun b hb => by rw [← Option.some.injEq _ _ |>.mp hb]; exact hdpos) hex2]
        omega
      | false =>
        simp only [bestClusterAux, hlt, Bool.false_eq_true, if_false, hidx]
        rw [ih (c + 1) bc bd hbd hex2]
        omega

theorem bestCluster_eq_findIdx (dim : ℕ) (cents : List (List K)) (v : List K)
    (hex : ∃ cent ∈ cents, dist2 dim v cent = 0) :
    bestCluster dim cents v
      = cents.findIdx (fun cent => decide (dist2 dim v cent = 0)) := by
  unfold bestCluster
  rw [bestClusterAux_finds_zero dim v cents 0 0 none (fun b hb => by cases hb) hex,
    Nat.zero_add]

theorem findIdx_congr {A : Type} (p q : A → Bool) :
    ∀ l : List A, (∀ x ∈ l, p x = q x) → l.findIdx p = l.findIdx q := by
  intro l
  induction l with
  | nil => intro _; rfl
  | cons a rest ih =>
    intro h
    rw [List.findIdx_cons, List.findIdx_cons, h a (List.mem_cons_self a rest),
      ih (fun x hx => h x (List.mem_cons_of_mem a hx))]

theorem clusterMembers_map_self (f : List K → ℕ) (c : ℕ) :
    ∀ l : List (List K), clusterMembers c (l.map f) l = l.filter (fun v => f v == c) := by
  intro l
  induction l with
  | nil => rfl
  | cons v rest ih =>
    unfold clusterMembers at ih ⊢
    rw [List.map_cons, List.zip_cons_cons, List.filter_cons, List.filter_cons]
    by_cases h : f v == c
    · simp only [h, if_true, List.map_cons, ih]
    · simp only [h, Bool.false_eq_true, if_false, ih]

theorem range_map_getD (dim : ℕ) (v : List K) (hv : v.length = dim) :
    (List.range dim).map (fun d => v.getD d 0) = v := by
  apply List.ext_getElem (by simp [hv])
  intro i h1 h2
  simp only [List.getElem_map, List.getElem_range]
  rw [List.getD_eq_getElem v 0 h2]

theorem updateCentroids_self (dim : ℕ) (vectors : List (List K))
    (hdim : ∀ v ∈ vectors, v.length = dim) :
    updateCentroids vectors.length dim vectors
      (vectors.map (fun v => vectors.findIdx (fun w => decide (w = v)))) vectors
      = vectors := by
  apply List.ext_getElem (by simp [updateCentroids])
  intro c h1 h2
  unfold updateCentroids
  rw [List.getElem_map, List.getElem_range]
  rw [clusterMembers_map_self (fun v => vectors.findIdx (fun w => decide (w = v))) c vectors]
  set members := vectors.filter
    (fun v => vectors.findIdx (fun w => decide (w = v)) == c) with hmem
  have hmemc : ∀ x ∈ members, x = vectors[c] := by
    intro x hx
    rcases List.mem_filter.mp hx with ⟨hxv, hfx⟩
    have hfxc : vectors.findIdx (fun w => decide (w = x)) = c := by
      simpa using hfx
    have hlt : vectors.findIdx (fun w => decide (w = x)) < vectors.length :=
      List.findIdx_lt_length_of_exists ⟨x, hxv, by simp⟩
    have hvx : vectors.get ⟨vectors.findIdx (fun w => decide (w = x)), hlt⟩ = x := by
      have := List.findIdx_getElem (w := hlt)
      simpa using this
    have hfin : (⟨vectors.findIdx (fun w => decide (w = x)), hlt⟩ : Fin vectors.length)
        = ⟨c, h2⟩ := by
      apply Fin.ext
      simpa using hfxc
    rw [hfin, List.get_eq_getElem] at hvx
    exact hvx.symm
  by_cases hempty : members.isEmpty
  · rw [if_pos hempty, List.getD_eq_getElem vectors [] h2]
  · rw [if_neg hempty]
    have hne : members ≠ [] := by
      intro hcon
      rw [hcon] at hempty
      exact hempty rfl
    have hlenne : (members.length : K) ≠ 0 := by
      rw [Nat.cast_ne_zero]
      intro hcon
      exact hne (List.length_eq_zero.mp hcon)
    have hrep : members = List.replicate members.length (vectors[c]) :=
      List.eq_replicate_iff.mpr ⟨rfl, hmemc⟩
    have hcol : ∀ d : ℕ, (members.map (fun v => v.getD d 0)).sum / (members.length : K)
        = (vectors[c]).getD d 0 := by
      intro d
      conv_lhs => rw [hrep]
      rw [List.map_replicate, List.sum_replicate, List.length_replicate, nsmul_eq_mul,
        mul_div_cancel_left₀ _ hlenne]
    have hveclen : (vectors[c]).length = dim := hdim _ (List.getElem_mem h2)
    calc (List.range dim).map (fun d =>
          (members.map (fun v => v.getD d 0)).sum / (members.length : K))
        = (List.range dim).map (fun d => (vectors[c]).getD d 0) :=
          List.map_congr_left (fun d _ => hcol d)
      _ = vectors[c] := range_map_getD dim _ hveclen

end KMeansProofs

theorem kmeansLoop_succ {K : Type} [LinearOrderedField K] (k dim : ℕ)
    (vectors : List (List K)) (fuel : ℕ) (assigns : List ℕ) (cents : List (List K)) :
    kmeansLoop k dim vectors (fuel + 1) assigns cents
      = (if vectors.map (bestCluster dim cents) = assigns
          then (vectors.map (bestCluster dim cents),
            updateCentroids k dim vectors (vectors.map (bestCluster dim cents)) cents)
          else kmeansLoop k dim vectors fuel (vectors.map (bestCluster dim cents))
            (updateCentroids k dim vectors (vectors.map (bestCluster dim cents)) cents)) :=
  rfl

/-- C4: with `k ≥` the number of vectors, `kMeansCluster` assigns every
vector to the cluster of its first occurrence (its own index when vectors
are distinct, fewer clusters when vectors coincide), the final centroids are
the vectors themselves, and re-running the assignment step on the final
centroids changes nothing (the loop stabilizes right after the first
assignment round). -/
theorem kMeansCluster_k_ge_n {K : Type} [LinearOrderedField K]
    (vectors : List (List K)) (k : ℕ)
    (hne : vectors ≠ []) (hk : vectors.length ≤ k)
    (hdim : ∀ v ∈ vectors, v.length = (vectors.headD []).length) :
    kMeansCluster vectors k
      = (vectors.map (fun v => vectors.findIdx (fun w => decide (w = v))), vectors) ∧
    vectors.map (bestCluster (vectors.headD []).length (kMeansCluster vectors k).2)
      = (kMeansCluster vectors k).1 := by
  set dim := (vectors.headD []).length with hdimdef
  have hA : vectors.map (bestCluster dim vectors)
      = vectors.map (fun v => vectors.findIdx (fun w => decide (w = v))) := by
    apply List.map_congr_left
    intro v hv
    rw [bestCluster_eq_findIdx dim vectors v ⟨v, hv, dist2_self dim v⟩]
    apply findIdx_congr _ _ vectors
    intro w hw
    rw [decide_eq_decide, dist2_eq_zero_iff dim v w (hdim v hv) (hdim w hw)]
    exact eq_comm
  have hU := updateCentroids_self dim vectors hdim
  have hnlen : 0 < vectors.length := List.length_pos.mpr hne
  have hmain : kMeansCluster vectors k
      = (vectors.map (fun v => vectors.findIdx (fun w => decide (w = v))), vectors) := by
    unfold kMeansCluster
    rw [if_neg (by omega : ¬(vectors.length = 0 ∨ k = 0)), Nat.min_eq_right hk,
      List.take_length]
    rw [show (25 : ℕ) = 24 + 1 from rfl, kmeansLoop_succ, hA, hU]
    by_cases hc : vectors.map (fun v => vectors.findIdx (fun w => decide (w = v)))
        = List.replicate vectors.length 0
    · rw [if_pos hc]
    · rw [if_neg hc, show (24 : ℕ) = 23 + 1 from rfl, kmeansLoop_succ, hA, hU, if_pos rfl]
  refine ⟨hmain, ?_⟩
  rw [hmain]
  exact hA

/-- Witness for C4 at `vectors = [[1], [2]] : List (List ℚ)`, `k = 2`: two
distinct one-dimensional vectors with `k = n`, each assigned to its own
cluster. -/
theorem kMeansCluster_k_ge_n_witness :
    (([[(1 : ℚ)], [2]] : List (List ℚ)) ≠ [] ∧
      ([[(1 : ℚ)], [2]] : List (List ℚ)).length ≤ 2 ∧
      (∀ v ∈ ([[(1 : ℚ)], [2]] : List (List ℚ)),
        v.length = (([[(1 : ℚ)], [2]] : List (List ℚ)).headD []).length)) ∧
    (kMeansCluster ([[(1 : ℚ)], [2]] : List (List ℚ)) 2
      = (([[(1 : ℚ)], [2]] : List (List ℚ)).map
          (fun v => ([[(1 : ℚ)], [2]] : List (List ℚ)).findIdx (fun w => decide (w = v))),
        ([[(1 : ℚ)], [2]] : List (List ℚ))) ∧
    ([[(1 : ℚ)], [2]] : List (List ℚ)).map
        (bestCluster (([[(1 : ℚ)], [2]] : List (List ℚ)).headD []).length
          (kMeansCluster ([[(1 : ℚ)], [2]] : List (List ℚ)) 2).2)
      = (kMeansCluster ([[(1 : ℚ)], [2]] : List (List ℚ)) 2).1) :=
  ⟨⟨by simp, by simp, by simp⟩,
    kMeansCluster_k_ge_n ([[(1 : ℚ)], [2]] : List (List ℚ)) 2 (by simp) (by simp) (by simp)⟩

/-! Mutable state and the cluster cache (`src/app.js:38-41`, `617-635`,
`1716-1785`). -/

/-- The engine-relevant mutable globals: `people`, `matrixOrder`, and the
cluster cache `cachedClusterAssignments` / `cachedClusterK` (both `null`
initially, `src/app.js:40-41`). -/
structure AppState where
  people : List Person
  matrixOrder : List ℕ
  cachedClusterAssignments : Option (List ℕ)
  cachedClusterK : Option ℕ
deriving DecidableEq

/-- `computeClustersOnce()` (`src/app.js:617-635`): `null` when there are no
people; otherwise the cached `{assignments, k}` when the cache is set (JS
truthiness: any array, even empty, is truthy), else cluster the normalized
vectors with fixed `k = 3` and store the result in the cache.  Returns the
result together with the (possibly updated) state.  In the cached branch
the stored `cachedClusterK` is always a `some` in reachable states; `getD 0`
stands for the unreachable `null` read. -/
noncomputable def computeClustersOnce (s : AppState) : Option (List ℕ × ℕ) × AppState :=
  if s.people = [] then (none, s)
  else
    match s.cachedClusterAssignments with
    | some a => (some (a, s.cachedClusterK.getD 0), s)
    | none =>
      (some ((kMeansCluster (buildNormalizedVectors s.people) 3).1, 3),
        { s with
          cachedClusterAssignments := some ((kMeansCluster (buildNormalizedVectors s.people) 3).1),
          cachedClusterK := some 3 })

/-- The state effect of a successful `loadSheet()` (`src/app.js:1716-1785`):
`people` is replaced by the freshly parsed rows and `matrixOrder` is reset to
the natural order (`src/app.js:1733,1762`).  CSV fetching and parsing are
external collaborators; the parsed people list is a parameter.  Notably,
the cluster cache fields are not touched anywhere in `loadSheet`. -/
def loadSheet (s : AppState) (newPeople : List Person) : AppState :=
  { s with people := newPeople, matrixOrder := List.range newPeople.length }

/-- Counterexample to C2: start with one person (zero-length score rows for
concreteness), run one cluster query (which caches assignments `[0]`), then
load a new two-person Score Matrix.  The next cluster query still returns
the stale one-entry assignment list `[0]` from the cache — it is not
recomputed for the new data, which has 2 people. -/
theorem computeClustersOnce_stale_after_loadSheet :
    (computeClustersOnce (loadSheet
        (computeClustersOnce ⟨[⟨"A", []⟩], [0], none, none⟩).2
        [⟨"B", [some 1]⟩, ⟨"C", [some 2]⟩])).1 = some ([0], 3) ∧
    (loadSheet (computeClustersOnce ⟨[⟨"A", []⟩], [0], none, none⟩).2
        [⟨"B", [some 1]⟩, ⟨"C", [some 2]⟩]).people.length = 2 ∧
    ([0] : List ℕ).length ≠ 2 := by
  refine ⟨rfl, rfl, by norm_num⟩

/-- C2 (amended): `loadSheet` does not invalidate the cluster cache.  The
cache fields survive a load unchanged, and the next cluster query (with the
new, nonempty people list) returns the previously memoized assignments and
`k`, recomputing nothing and leaving the state as is. -/
theorem computeClustersOnce_cache_survives_loadSheet (s : AppState)
    (newPeople : List Person) (a : List ℕ) (k0 : ℕ)
    (ha : s.cachedClusterAssignments = some a) (hk : s.cachedClusterK = some k0)
    (hne : newPeople ≠ []) :
    (loadSheet s newPeople).cachedClusterAssignments = some a ∧
    computeClustersOnce (loadSheet s newPeople) = (some (a, k0), loadSheet s newPeople) := by
  constructor
  · simpa [loadSheet] using ha
  · simp [computeClustersOnce, loadSheet, ha, hk, hne]

/-- Witness for the amended C2 at a concrete cached state. -/
theorem computeClustersOnce_cache_survives_loadSheet_witness :
    ((⟨[⟨"A", []⟩], [0], some [0], some 3⟩ : AppState).cachedClusterAssignments = some [0] ∧
      (⟨[⟨"A", []⟩], [0], some [0], some 3⟩ : AppState).cachedClusterK = some 3 ∧
      ([⟨"B", [some 1]⟩, ⟨"C", [some 2]⟩] : List Person) ≠ []) ∧
    ((loadSheet ⟨[⟨"A", []⟩], [0], some [0], some 3⟩
        [⟨"B", [some 1]⟩, ⟨"C", [some 2]⟩]).cachedClusterAssignments = some [0] ∧
      computeClustersOnce (loadSheet ⟨[⟨"A", []⟩], [0], some [0], some 3⟩
          [⟨"B", [some 1]⟩, ⟨"C", [some 2]⟩])
        = (some ([0], 3), loadSheet ⟨[⟨"A", []⟩], [0], some [0], some 3⟩
            [⟨"B", [some 1]⟩, ⟨"C", [some 2]⟩])) :=
  ⟨⟨rfl, rfl, by simp⟩,
    computeClustersOnce_cache_survives_loadSheet _ _ [0] 3 rfl rfl (by simp)⟩

/-! Two-person comparison (`computeCorrelation`, `src/app.js:1909-2237`):
the overlap gathering loop, the agreement-strength buckets, and the
compromise recommendation.  Location names are resolved externally
(`getLocationName`); entries carry the location index instead. -/

/-- One element of the `overlapDetails` array (`src/app.js:1965`):
`{ index, a, b }` for a location both people rated. -/
structure OverlapEntry where
  index : ℕ
  a : ℚ
  b : ℚ
deriving DecidableEq

/-- The `overlapDetails` gathering loop (`src/app.js:1956-1965`): walk the
score indices and keep those where both scores are present. -/
def overlapDetails (pA pB : Person) : List OverlapEntry :=
  (List.range pA.scores.length).filterMap (fun i =>
    match pA.scores.getD i none, pB.scores.getD i none with
    | some a, some b => some ⟨i, a, b⟩
    | _, _ => none)

/-- One step of the agreement-strength bucket counting
(`src/app.js:1999-2008`): the `else if` chain on `absDiff` (exactly 0,
exactly 1, exactly 2, `>= 3`); any other difference falls through without
incrementing a bucket. -/
def bucketStep (counts : ℕ × ℕ × ℕ × ℕ) (e : OverlapEntry) : ℕ × ℕ × ℕ × ℕ :=
  let d := |e.a - e.b|
  if d = 0 then (counts.1 + 1, counts.2.1, counts.2.2.1, counts.2.2.2)
  else if d = 1 then (counts.1, counts.2.1 + 1, counts.2.2.1, counts.2.2.2)
  else if d = 2 then (counts.1, counts.2.1, counts.2.2.1 + 1, counts.2.2.2)
  else if 3 ≤ d then (counts.1, counts.2.1, counts.2.2.1, counts.2.2.2 + 1)
  else counts

/-- `(exactSameCount, offBy1Count, offBy2Count, diff3PlusCount)` after the
overlap loop. -/
def bucketCounts (od : List OverlapEntry) : ℕ × ℕ × ℕ × ℕ :=
  od.foldl bucketStep (0, 0, 0, 0)

/-- `Math.round` (round half towards positive infinity). -/
def jsRound (q : ℚ) : ℤ := ⌊q + 1 / 2⌋

/-- The four reported percentages (`src/app.js:2093-2096`):
`Math.round((count / n) * 100)` with `n` the overlap size. -/
def bucketPcts (pA pB : Person) : ℤ × ℤ × ℤ × ℤ :=
  let od := overlapDetails pA pB
  let n := od.length
  let c := bucketCounts od
  (jsRound ((c.1 : ℚ) / (n : ℚ) * 100), jsRound ((c.2.1 : ℚ) / (n : ℚ) * 100),
    jsRound ((c.2.2.1 : ℚ) / (n : ℚ) * 100), jsRound ((c.2.2.2 : ℚ) / (n : ℚ) * 100))

/-- The `compromise` record (`src/app.js:2099`). -/
structure Compromise where
  index : ℕ
  a : ℚ
  b : ℚ
  absDiff : ℚ
  avg : ℚ
deriving DecidableEq

/-- One step of the compromise loop (`src/app.js:2100-2117`): replace the
incumbent when the new absolute difference is smaller by more than `1e-9`,
or within `1e-9` of it with a strictly higher average. -/
def compromiseStep (best : Option Compromise) (m : OverlapEntry) : Option Compromise :=
  let absDiff := |m.a - m.b|
  let avgScore := (m.a + m.b) / 2
  match best with
  | none => some ⟨m.index, m.a, m.b, absDiff, avgScore⟩
  | some c =>
    if absDiff < c.absDiff - 1 / 1000000000
        ∨ (|absDiff - c.absDiff| < 1 / 1000000000 ∧ avgScore > c.avg)
    then some ⟨m.index, m.a, m.b, absDiff, avgScore⟩
    else some c

/-- The compromise recommendation of `computeCorrelation`
(`src/app.js:2098-2117`). -/
def computeCompromise (pA pB : Person) : Option Compromise :=
  (overlapDetails pA pB).foldl compromiseStep none

/-- The selection rule in the words of the spec (claim C8), with exact
comparisons: minimal `|A - B|`, ties broken by strictly higher average,
earliest location on full ties.  Declared only to be compared with
`computeCompromise`. -/
def specCompromiseStep (best : Option Compromise) (m : OverlapEntry) : Option Compromise :=
  let absDiff := |m.a - m.b|
  let avgScore := (m.a + m.b) / 2
  match best with
  | none => some ⟨m.index, m.a, m.b, absDiff, avgScore⟩
  | some c =>
    if absDiff < c.absDiff ∨ (absDiff = c.absDiff ∧ avgScore > c.avg)
    then some ⟨m.index, m.a, m.b, absDiff, avgScore⟩
    else some c

/-- The spec-worded compromise selection, for refinement comparison. -/
def specCompromise (pA pB : Person) : Option Compromise :=
  (overlapDetails pA pB).foldl specCompromiseStep none

/-- Sum of the four bucket counters. -/
def sum4 (t : ℕ × ℕ × ℕ × ℕ) : ℕ := t.1 + t.2.1 + t.2.2.1 + t.2.2.2

theorem sum4_foldl_bucketStep (l : List OverlapEntry) :
    ∀ acc : ℕ × ℕ × ℕ × ℕ,
      sum4 (l.foldl bucketStep acc)
        = sum4 acc + l.countP (fun e =>
            decide (|e.a - e.b| = 0 ∨ |e.a - e.b| = 1 ∨ |e.a - e.b| = 2 ∨ 3 ≤ |e.a - e.b|)) := by
  induction l with
  | nil => intro acc; simp
  | cons e l ih =>
    intro acc
    rw [List.foldl_cons, ih, List.countP_cons]
    by_cases h0 : |e.a - e.b| = 0
    · simp [bucketStep, sum4, h0]
      omega
    · by_cases h1 : |e.a - e.b| = 1
      · simp [bucketStep, sum4, h0, h1]
        omega
      · by_cases h2 : |e.a - e.b| = 2
        · simp [bucketStep, sum4, h0, h1, h2]
          omega
        · by_cases h3 : 3 ≤ |e.a - e.b|
          · simp [bucketStep, sum4, h0, h1, h2, h3]
            omega
          · simp [bucketStep, sum4, h0, h1, h2, h3]

/-- C9 (amended): an overlap entry whose absolute difference is a
non-integer below 3 increments no bucket, and consequently the four bucket
counts sum to the overlap size exactly when every overlap difference is an
integer or at least 3.  (The rounded percentages can nevertheless sum to
100; see the counterexample.) -/
theorem bucketCounts_exhaustive_iff (pA pB : Person) :
    (∀ (c : ℕ × ℕ × ℕ × ℕ) (e : OverlapEntry),
      (¬∃ z : ℤ, ((z : ℚ)) = |e.a - e.b|) → |e.a - e.b| < 3 → bucketStep c e = c) ∧
    (sum4 (bucketCounts (overlapDetails pA pB)) = (overlapDetails pA pB).length ↔
      ∀ e ∈ overlapDetails pA pB,
        (∃ z : ℤ, ((z : ℚ)) = |e.a - e.b|) ∨ 3 ≤ |e.a - e.b|) := by
  constructor
  · intro c e hint hlt
    have h0 : ¬ |e.a - e.b| = 0 := fun h => hint ⟨0, by rw [h]; norm_num⟩
    have h1 : ¬ |e.a - e.b| = 1 := fun h => hint ⟨1, by rw [h]; norm_num⟩
    have h2 : ¬ |e.a - e.b| = 2 := fun h => hint ⟨2, by rw [h]; norm_num⟩
    have h3 : ¬ 3 ≤ |e.a - e.b| := not_le.mpr hlt
    simp [bucketStep, h0, h1, h2, h3]
  · rw [bucketCounts, sum4_foldl_bucketStep]
    have hz : sum4 (0, 0, 0, 0) = 0 := rfl
    rw [hz, Nat.zero_add, List.countP_eq_length]
    constructor
    · intro h e he
      have := h e he
      rw [decide_eq_true_eq] at this
      rcases this with h' | h' | h' | h'
      · exact Or.inl ⟨0, by rw [h']; norm_num⟩
      · exact Or.inl ⟨1, by rw [h']; norm_num⟩
      · exact Or.inl ⟨2, by rw [h']; norm_num⟩
      · exact Or.inr h'
    · intro h e he
      rw [decide_eq_true_eq]
      rcases h e he with ⟨z, hzq⟩ | h3
      · by_cases h3 : 3 ≤ |e.a - e.b|
        · exact Or.inr (Or.inr (Or.inr h3))
        · have hnn : (0 : ℚ) ≤ (z : ℚ) := hzq ▸ abs_nonneg _
          have hlt3 : ((z : ℚ)) < 3 := hzq ▸ not_le.mp h3
          have hz0 : 0 ≤ z := by exact_mod_cast hnn
          have hz3 : z < 3 := by exact_mod_cast hlt3
          have : z = 0 ∨ z = 1 ∨ z = 2 := by omega
          rcases this with rfl | rfl | rfl
          · exact Or.inl (by rw [← hzq]; norm_num)
          · exact Or.inr (Or.inl (by rw [← hzq]; norm_num))
          · exact Or.inr (Or.inr (Or.inl (by rw [← hzq]; norm_num)))
      · exact Or.inr (Or.inr (Or.inr h3))

/-- Witness for the amended C9: the entry `(index 0, scores 0 and 1/2)` has
a non-integer difference `1/2` below 3 and is counted by no bucket. -/
theorem bucketCounts_exhaustive_iff_witness :
    ((¬∃ z : ℤ, ((z : ℚ)) = |(0 : ℚ) - 1 / 2|) ∧ |(0 : ℚ) - 1 / 2| < 3) ∧
    bucketStep (0, 0, 0, 0) ⟨0, 0, 1 / 2⟩ = (0, 0, 0, 0) := by
  have hint : ¬∃ z : ℤ, ((z : ℚ)) = |(0 : ℚ) - 1 / 2| := by
    rintro ⟨z, hz⟩
    have habs : |(0 : ℚ) - 1 / 2| = 1 / 2 := by with_unfolding_all decide
    rw [habs] at hz
    have h1 : (2 : ℚ) * z = 1 := by rw [hz]; norm_num
    have h2 : (2 : ℤ) * z = 1 := by exact_mod_cast h1
    omega
  have hlt : |(0 : ℚ) - 1 / 2| < 3 := by with_unfolding_all decide
  exact ⟨⟨hint, hlt⟩,
    (bucketCounts_exhaustive_iff ⟨"A", []⟩ ⟨"B", []⟩).1 (0, 0, 0, 0) ⟨0, 0, 1 / 2⟩ hint hlt⟩

/-- Two people with 53 overlapping locations: differences 13 × 0, 13 × 1,
13 × 2, 13 × 3 and one uncounted difference 1/2. -/
def c9personA : Person := ⟨"A", List.replicate 53 (some 0)⟩

/-- Counterpart of `c9personA`; see there. -/
def c9personB : Person :=
  ⟨"B", List.replicate 13 (some 0) ++ List.replicate 13 (some 1)
    ++ List.replicate 13 (some 2) ++ List.replicate 13 (some 3) ++ [some (1 / 2)]⟩

/-- Counterexample to C9 as stated: the four reported (rounded) percentages
sum to 100 even though one overlap difference (`1/2` at index 52) is a
non-integer strictly between 0 and 3. -/
theorem bucketPcts_counterexample :
    bucketPcts c9personA c9personB = (25, 25, 25, 25) ∧
    (25 + 25 + 25 + 25 : ℤ) = 100 ∧
    (⟨52, 0, 1 / 2⟩ : OverlapEntry) ∈ overlapDetails c9personA c9personB ∧
    (0 : ℚ) < |(0 : ℚ) - 1 / 2| ∧ |(0 : ℚ) - 1 / 2| < 3 ∧
    ¬∃ z : ℤ, ((z : ℚ)) = |(0 : ℚ) - 1 / 2| := by
  refine ⟨by with_unfolding_all decide, by norm_num, by with_unfolding_all decide,
    by with_unfolding_all decide, by with_unfolding_all decide, ?_⟩
  rintro ⟨z, hz⟩
  have habs : |(0 : ℚ) - 1 / 2| = 1 / 2 := by with_unfolding_all decide
  rw [habs] at hz
  have h1 : (2 : ℚ) * z = 1 := by rw [hz]; norm_num
  have h2 : (2 : ℤ) * z = 1 := by exact_mod_cast h1
  omega

theorem compromise_foldl_eq (l : List OverlapEntry) :
    ∀ acc : Option Compromise,
      (∀ e ∈ l, ∀ c : Compromise, acc = some c →
        (|e.a - e.b| = c.absDiff ∨ 1 / 1000000000 < abs (|e.a - e.b| - c.absDiff))) →
      (∀ e1 ∈ l, ∀ e2 ∈ l,
        (|e1.a - e1.b| = |e2.a - e2.b|
          ∨ 1 / 1000000000 < abs (|e1.a - e1.b| - |e2.a - e2.b|))) →
      l.foldl compromiseStep acc = l.foldl specCompromiseStep acc := by
  induction l with
  | nil => intro acc _ _; rfl
  | cons e l ih =>
    intro acc hacc hsep
    rw [List.foldl_cons, List.foldl_cons]
    have heps : (0 : ℚ) < 1 / 1000000000 := by norm_num
    have hstep : compromiseStep acc e = specCompromiseStep acc e := by
      cases acc with
      | none => rfl
      | some c =>
        simp only [compromiseStep, specCompromiseStep]
        rcases hacc e (List.mem_cons_self e l) c rfl with heq | hgt
        · rw [heq]
          have h1 : ¬(c.absDiff < c.absDiff - 1 / 1000000000) := by linarith
          have h2 : |c.absDiff - c.absDiff| < 1 / 1000000000 := by
            rw [sub_self, abs_zero]; exact heps
          have h3 : ¬(c.absDiff < c.absDiff) := lt_irrefl _
          by_cases havg : (e.a + e.b) / 2 > c.avg
          · rw [if_pos (Or.inr ⟨h2, havg⟩), if_pos (Or.inr ⟨rfl, havg⟩)]
          · rw [if_neg (by rintro (h | ⟨_, hv⟩); exacts [h1 h, havg hv]),
              if_neg (by rintro (h | ⟨_, hv⟩); exacts [h3 h, havg hv])]
        · rcases lt_trichotomy (|e.a - e.b|) c.absDiff with hlt | heq2 | hgt2
          · have h1 : |e.a - e.b| < c.absDiff - 1 / 1000000000 := by
              rw [abs_of_neg (by linarith : |e.a - e.b| - c.absDiff < 0)] at hgt
              linarith
            rw [if_pos (Or.inl h1), if_pos (Or.inl hlt)]
          · rw [heq2, sub_self, abs_zero] at hgt
            exact absurd hgt (by linarith)
          · have habs : abs (|e.a - e.b| - c.absDiff) = |e.a - e.b| - c.absDiff :=
              abs_of_pos (by linarith)
            rw [habs] at hgt
            have h1 : ¬(|e.a - e.b| < c.absDiff - 1 / 1000000000) := by linarith
            have h2 : ¬(abs (|e.a - e.b| - c.absDiff) < 1 / 1000000000) := by
              rw [habs]
              linarith
            have hcode : ¬(|e.a - e.b| < c.absDiff - 1 / 1000000000
                ∨ (abs (|e.a - e.b| - c.absDiff) < 1 / 1000000000
                  ∧ (e.a + e.b) / 2 > c.avg)) := by
              rintro (h | ⟨hd, _⟩)
              exacts [h1 h, h2 hd]
            have hspec : ¬(|e.a - e.b| < c.absDiff
                ∨ (|e.a - e.b| = c.absDiff ∧ (e.a + e.b) / 2 > c.avg)) := by
              rintro (h | ⟨hd, _⟩)
              exacts [lt_asymm hgt2 h, ne_of_gt hgt2 hd]
            rw [if_neg hcode, if_neg hspec]
    rw [hstep]
    apply ih
    · intro e2 he2 c2 hc2
      cases acc with
      | none =>
        have hc2v : c2 = ⟨e.index, e.a, e.b, |e.a - e.b|, (e.a + e.b) / 2⟩ := by
          simpa [specCompromiseStep] using hc2.symm
        rw [hc2v]
        exact hsep e2 (List.mem_cons_of_mem e he2) e (List.mem_cons_self e l)
      | some c =>
        simp only [specCompromiseStep] at hc2
        by_cases hcond : |e.a - e.b| < c.absDiff
            ∨ (|e.a - e.b| = c.absDiff ∧ (e.a + e.b) / 2 > c.avg)
        · rw [if_pos hcond] at hc2
          have hc2v : c2 = ⟨e.index, e.a, e.b, |e.a - e.b|, (e.a + e.b) / 2⟩ := by
            simpa using hc2.symm
          rw [hc2v]
          exact hsep e2 (List.mem_cons_of_mem e he2) e (List.mem_cons_self e l)
        · rw [if_neg hcond] at hc2
          have hc2v : c2 = c := by simpa using hc2.symm
          rw [hc2v]
          exact hacc e2 (List.mem_cons_of_mem e he2) c rfl
    · intro e1 he1 e2 he2
      exact hsep e1 (List.mem_cons_of_mem e he1) e2 (List.mem_cons_of_mem e he2)

/-- C8 (amended): the compromise loop compares absolute differences with a
`1e-9` tolerance; whenever the absolute differences of the overlap are
pairwise either exactly equal or more than `1e-9` apart, it selects exactly
as the spec words it: minimal `|A - B|`, ties broken by strictly higher
average of the two values, earliest location on full ties
(`specCompromise`). -/
theorem computeCompromise_eq_spec (pA pB : Person)
    (hsep : ∀ e1 ∈ overlapDetails pA pB, ∀ e2 ∈ overlapDetails pA pB,
      (|e1.a - e1.b| = |e2.a - e2.b|
        ∨ 1 / 1000000000 < abs (|e1.a - e1.b| - |e2.a - e2.b|))) :
    computeCompromise pA pB = specCompromise pA pB :=
  compromise_foldl_eq (overlapDetails pA pB) none (fun _ _ _ hc => by cases hc) hsep

/-- Witness for the amended C8: differences 1 and 0 are more than `1e-9`
apart, and the code selection agrees with the spec selection. -/
theorem computeCompromise_eq_spec_witness :
    (∀ e1 ∈ overlapDetails ⟨"A", [some 0, some 3]⟩ ⟨"B", [some 1, some 3]⟩,
      ∀ e2 ∈ overlapDetails ⟨"A", [some 0, some 3]⟩ ⟨"B", [some 1, some 3]⟩,
      (|e1.a - e1.b| = |e2.a - e2.b|
        ∨ 1 / 1000000000 < abs (|e1.a - e1.b| - |e2.a - e2.b|))) ∧
    computeCompromise ⟨"A", [some 0, some 3]⟩ ⟨"B", [some 1, some 3]⟩
      = specCompromise ⟨"A", [some 0, some 3]⟩ ⟨"B", [some 1, some 3]⟩ :=
  ⟨by with_unfolding_all decide,
    computeCompromise_eq_spec ⟨"A", [some 0, some 3]⟩ ⟨"B", [some 1, some 3]⟩
      (by with_unfolding_all decide)⟩

/-- Counterexample to C8 as stated: scores `A = [5, 0]`,
`B = [9/2, 1/2 - 1e-10]`.  Location 1 has the strictly smaller absolute
difference (`1/2 - 1e-10 < 1/2`), yet the code keeps location 0, because the
two differences are within the `1e-9` tie tolerance and location 0 has the
higher average. -/
theorem computeCompromise_counterexample :
    (computeCompromise ⟨"A", [some 5, some 0]⟩
        ⟨"B", [some (9 / 2), some (1 / 2 - 1 / 10000000000)]⟩).map
        (fun c => c.index) = some 0 ∧
    (⟨0, 5, 9 / 2⟩ : OverlapEntry) ∈ overlapDetails ⟨"A", [some 5, some 0]⟩
        ⟨"B", [some (9 / 2), some (1 / 2 - 1 / 10000000000)]⟩ ∧
    (⟨1, 0, 1 / 2 - 1 / 10000000000⟩ : OverlapEntry) ∈ overlapDetails
        ⟨"A", [some 5, some 0]⟩ ⟨"B", [some (9 / 2), some (1 / 2 - 1 / 10000000000)]⟩ ∧
    |(0 : ℚ) - (1 / 2 - 1 / 10000000000)| < |(5 : ℚ) - 9 / 2| := by
  have hod : overlapDetails ⟨"A", [some 5, some 0]⟩
      ⟨"B", [some (9 / 2), some (1 / 2 - 1 / 10000000000)]⟩
      = [⟨0, 5, 9 / 2⟩, ⟨1, 0, 1 / 2 - 1 / 10000000000⟩] := rfl
  have ha0 : |(5 : ℚ) - 9 / 2| = 1 / 2 := by
    rw [show (5 : ℚ) - 9 / 2 = 1 / 2 by norm_num]
    exact abs_of_pos (by norm_num)
  have hb0 : |(0 : ℚ) - (1 / 2 - 1 / 10000000000)| = 1 / 2 - 1 / 10000000000 := by
    rw [show (0 : ℚ) - (1 / 2 - 1 / 10000000000) = -(1 / 2 - 1 / 10000000000) by ring,
      abs_neg]
    exact abs_of_pos (by norm_num)
  refine ⟨?_, by rw [hod]; simp, by rw [hod]; simp, by rw [hb0, ha0]; norm_num⟩
  rw [computeCompromise, hod, List.foldl_cons, List.foldl_cons, List.foldl_nil]
  rw [show compromiseStep none ⟨0, 5, 9 / 2⟩
      = some ⟨0, 5, 9 / 2, |(5 : ℚ) - 9 / 2|, (5 + 9 / 2) / 2⟩ from rfl]
  have hcond : ¬(|(0 : ℚ) - (1 / 2 - 1 / 10000000000)| < |(5 : ℚ) - 9 / 2| - 1 / 1000000000
      ∨ (abs (|(0 : ℚ) - (1 / 2 - 1 / 10000000000)| - |(5 : ℚ) - 9 / 2|) < 1 / 1000000000
        ∧ ((0 : ℚ) + (1 / 2 - 1 / 10000000000)) / 2 > (5 + 9 / 2) / 2)) := by
    rw [hb0, ha0]
    rintro (h | ⟨_, h2⟩)
    · norm_num at h
    · norm_num at h2
  rw [show compromiseStep (some ⟨0, 5, 9 / 2, |(5 : ℚ) - 9 / 2|, (5 + 9 / 2) / 2⟩)
        ⟨1, 0, 1 / 2 - 1 / 10000000000⟩
      = some ⟨0, 5, 9 / 2, |(5 : ℚ) - 9 / 2|, (5 + 9 / 2) / 2⟩ from by
    simp only [compromiseStep, if_neg hcond]]
  rfl

/-! Aggregate statistics (`computeGlobalPairExtremes`, `src/app.js:948-970`,
and `computePolarizationExtremes`, `src/app.js:972-1008`). -/

/-- A best/worst pair record `{ a, b, r, overlap }` (`src/app.js:949`). -/
structure PairExtreme where
  a : String
  b : String
  r : ℝ
  overlap : ℕ

/-- The ordered index pairs `(i, j)`, `i < j`, visited by the double loop of
`computeGlobalPairExtremes` (`src/app.js:952-953`), in loop order. -/
def allPairs (n : ℕ) : List (ℕ × ℕ) :=
  (List.range n).flatMap (fun i => ((List.range n).drop (i + 1)).map (fun j => (i, j)))

/-- The loop body of `computeGlobalPairExtremes` (`src/app.js:954-966`):
skip pairs with overlap below 2 or a non-finite correlation, otherwise
update the running best (strictly greater `r`) and worst (strictly smaller
`r`). -/
noncomputable def pairStep (people : List Person)
    (acc : Option PairExtreme × Option PairExtreme) (ij : ℕ × ℕ) :
    Option PairExtreme × Option PairExtreme :=
  let pA := people.getD ij.1 noPerson
  let pB := people.getD ij.2 noPerson
  let ov := buildOverlap pA pB
  if ov.1.length < 2 then acc
  else
    match pearsonCorrelation ov.1 ov.2 with
    | none => acc
    | some r =>
      (match acc.1 with
        | none => some ⟨pA.name, pB.name, r, ov.1.length⟩
        | some bp => if r > bp.r then some ⟨pA.name, pB.name, r, ov.1.length⟩ else some bp,
       match acc.2 with
        | none => some ⟨pA.name, pB.name, r, ov.1.length⟩
        | some wp => if r < wp.r then some ⟨pA.name, pB.name, r, ov.1.length⟩ else some wp)

/-- `computeGlobalPairExtremes()` from `src/app.js:948-970`, returning
`(bestPair, worstPair)`. -/
noncomputable def computeGlobalPairExtremes (people : List Person) :
    Option PairExtreme × Option PairExtreme :=
  (allPairs people.length).foldl (pairStep people) (none, none)

/-- A polarization record `{ index, std, n }` (`src/app.js:992-997`; the
location name is resolved externally from the index). -/
structure PolarEntry where
  index : ℕ
  std : ℝ
  n : ℕ

/-- The present scores of every person at one location (`src/app.js:980-984`). -/
def locationValues (people : List Person) (idx : ℕ) : List ℚ :=
  people.filterMap (fun p => p.scores.getD idx none)

/-- The loop body of `computePolarizationExtremes` (`src/app.js:979-1005`):
skip locations with fewer than 2 raters; otherwise compare the population
standard deviation against the running extremes (strictly greater for
`most`, strictly smaller for `least`). -/
noncomputable def polarStep (people : List Person)
    (acc : Option PolarEntry × Option PolarEntry) (idx : ℕ) :
    Option PolarEntry × Option PolarEntry :=
  let vals := locationValues people idx
  if vals.length < 2 then acc
  else
    let n := vals.length
    let mean := vals.sum / (n : ℚ)
    let variance := ((vals.map (fun v => (v - mean) * (v - mean))).sum) / (n : ℚ)
    let std := Real.sqrt ((variance : ℚ) : ℝ)
    (match acc.1 with
      | none => some ⟨idx, std, n⟩
      | some m => if std > m.std then some ⟨idx, std, n⟩ else some m,
     match acc.2 with
      | none => some ⟨idx, std, n⟩
      | some m => if std < m.std then some ⟨idx, std, n⟩ else some m)

/-- `computePolarizationExtremes()` from `src/app.js:972-1008`: an explicit
`(most, least) = (null, null)` for an empty people list, otherwise a scan of
all locations. -/
noncomputable def computePolarizationExtremes (people : List Person) :
    Option PolarEntry × Option PolarEntry :=
  if people = [] then (none, none)
  else (List.range ((people.headD noPerson).scores).length).foldl
    (polarStep people) (none, none)

/-- C7: with an empty Score Matrix both aggregate extreme functions return
the absent sentinel `(none, none)` (no exception is modelled: both are total
functions). -/
theorem aggregates_empty_people :
    computeGlobalPairExtremes [] = (none, none) ∧
    computePolarizationExtremes [] = (none, none) := by
  constructor
  · rfl
  · rw [computePolarizationExtremes, if_pos rfl]
